import Mathlib

/-!
Verification of the client-side upload queue / delivery engine of the
face-data collection app.

The embedding translates:
* `src/src/hooks/useUploadQueue.ts` — the delivery engine (`processNext`,
  `startProcessing`, `addToQueue`, `retryFailed`, `clearQueue`,
  `loadOfflineQueue`, the auto-start effect, `uploadProgress`);
* `src/src/lib/indexed-db.ts` — the durable spillover store
  (`saveToOfflineQueue`, `removeFromOfflineQueue`, `getOfflineQueue`);
* `src/src/utils/helpers.ts` — `getBackoffDelay`.

The asynchronous hook is embedded as an explicit event-driven state machine.
A `processNext` invocation is split at its suspension points: its synchronous
prefix (`tickStart`: find the next eligible item, mark it `uploading`) runs
atomically, and the pending `await uploadItem(...)` (together with the
optional per-item backoff await that precedes it) is recorded as an
outstanding continuation `Callback.attempt it` holding the `nextItem` snapshot
captured by the closure.  Scheduled `setTimeout` callbacks are the
continuations `Callback.nextTimer` (300 ms inter-item delay) and
`Callback.rateLimitTimer` (global rate-limit pause).  Events deliver the
environment's choices: enqueue, React running the auto-start effect, an
in-flight upload resolving with an outcome, a timer firing, and the external
entry points `clearQueue` / `retryFailed` / unmount / `loadOfflineQueue`.
JavaScript timer durations are not modelled in the engine (any interleaving
of firings is allowed, a superset of real-time behaviour); the numeric delay
formulas are embedded separately as `getBackoffDelay` and
`rateLimitPauseMs`.
-/

/-- `MAX_RETRIES` constant from `useUploadQueue.ts`. -/
def MAX_RETRIES : Nat := 5

/-- Item status strings `'pending' | 'uploading' | 'success' | 'error'`
from `CaptureItem` in `src/src/types/index.ts`. -/
inductive Status where
  | pending
  | uploading
  | success
  | error
deriving DecidableEq, Repr

/-- `CaptureItem`: the queue's unit of work.  `id` is the uuid (modelled as a
Nat drawn from a fresh counter), `imageBase64` stands for the opaque payload;
`metadata`/`filename` are opaque and omitted (never read by the engine). -/
structure Item where
  id : Nat
  imageBase64 : String
  status : Status
  retryCount : Nat
  errorMessage : Option String
deriving DecidableEq, Repr

/-- The predicate of `processNext`'s search (line 112-116):
`item.status === 'pending' && item.retryCount < MAX_RETRIES`. -/
def eligible (it : Item) : Bool :=
  it.status == Status.pending && it.retryCount < MAX_RETRIES

/-- `nextEligible`: the `currentQueue.find(...)` call of `processNext` —
first item in insertion order that is pending and below the retry ceiling. -/
def nextEligible (q : List Item) : Option Item :=
  q.find? eligible

/-- The `setQueue(prev => prev.map(...))` marking the chosen item
`'uploading'` (lines 131-133). -/
def markUploading (q : List Item) (id : Nat) : List Item :=
  q.map fun it => if it.id = id then { it with status := Status.uploading } else it

/-- One item's update under `retryFailed` (lines 257-263): items with
`status === 'error' && retryCount >= MAX_RETRIES` are reset to pending with
`retryCount = 0`; every other item is returned unchanged. -/
def resetFailedItem (it : Item) : Item :=
  if it.status == Status.error && MAX_RETRIES ≤ it.retryCount then
    { it with status := Status.pending, retryCount := 0 }
  else it

/-- `retryFailed` (lines 256-264): `setQueue(prev => prev.map(...))`. -/
def retryFailed (q : List Item) : List Item :=
  q.map resetFailedItem

/-- Result record of `uploadProgress` (lines 58-64). -/
structure Progress where
  success : Nat
  failed : Nat
  pending : Nat
deriving DecidableEq, Repr

/-- `uploadProgress` (lines 58-64): `success` counts `'success'` items,
`failed` counts items with `status === 'error' && retryCount >= MAX_RETRIES`,
`pending` counts `'pending'` and `'uploading'` items. -/
def uploadProgress (q : List Item) : Progress :=
  { success := (q.filter fun it => it.status == Status.success).length
    failed := (q.filter fun it =>
        it.status == Status.error && MAX_RETRIES ≤ it.retryCount).length
    pending := (q.filter fun it =>
        it.status == Status.pending || it.status == Status.uploading).length }

/-- `saveToOfflineQueue` (`indexed-db.ts` lines 16-19): an idb-keyval `set`
keyed by the item id — an upsert: replace the stored value at that key if
present, otherwise add the entry. -/
def saveToOfflineQueue (store : List Item) (it : Item) : List Item :=
  if store.any fun q => q.id == it.id then
    store.map fun q => if q.id = it.id then it else q
  else store ++ [it]

/-- `removeFromOfflineQueue` (`indexed-db.ts` lines 24-27): idb-keyval `del`
of the item's key; no error if absent. -/
def removeFromOfflineQueue (store : List Item) (id : Nat) : List Item :=
  store.filter fun q => q.id ≠ id

/-- Adapter outcome classification of `uploadItem` (lines 69-102):
HTTP 429 ↦ `rate_limit`, other non-2xx / thrown / `success !== true`
↦ `error`, otherwise `success`. -/
inductive Outcome where
  | success
  | rateLimit
  | error
deriving DecidableEq, Repr

/-- An outstanding asynchronous continuation of the hook:
an in-flight `uploadItem` call (with the `nextItem` snapshot its closure
captured), the scheduled inter-item `setTimeout` (`nextTimerRef`), or the
scheduled rate-limit pause `setTimeout` (`rateLimitTimerRef`). -/
inductive Callback where
  | attempt (it : Item)
  | nextTimer
  | rateLimitTimer
deriving DecidableEq, Repr

/-- The hook's complete mutable state: React state (`queue`, `isUploading`,
`isRateLimited`), the refs (`processingRef`, `mountedRef`,
`consecutiveRateLimitsRef`), the IndexedDB store, the outstanding
continuations, and a fresh-id counter standing for uuid generation. -/
structure EngineState where
  queue : List Item
  processing : Bool
  isUploading : Bool
  isRateLimited : Bool
  mounted : Bool
  consecutiveRateLimits : Nat
  spillover : List Item
  conts : List Callback
  nextId : Nat
deriving DecidableEq, Repr

/-- The state at mount: empty queue, flags down, store empty. -/
def initState : EngineState :=
  { queue := []
    processing := false
    isUploading := false
    isRateLimited := false
    mounted := true
    consecutiveRateLimits := 0
    spillover := []
    conts := []
    nextId := 0 }

/-- Synchronous prefix of `processNext` (lines 107-133): bail out if
unmounted; if no eligible item, drop the processing flag and `isUploading`
(go idle); otherwise set `isUploading`, mark the chosen item `'uploading'`
and leave the upload awaiting as an outstanding `Callback.attempt` holding the
`nextItem` snapshot. -/
def tickStart (s : EngineState) : EngineState :=
  if s.mounted then
    match nextEligible s.queue with
    | none => { s with processing := false, isUploading := false }
    | some it =>
        { s with
          isUploading := true
          queue := markUploading s.queue it.id
          conts := s.conts ++ [Callback.attempt it] }
  else s

/-- Resolution of an in-flight `uploadItem` (lines 145-222), after the
`mountedRef` check passed; `it` is the `nextItem` snapshot captured by the
closure.  `success`: reset the consecutive-429 counter, mark the item
`'success'`, delete its IndexedDB entry, schedule `nextTimerRef`.
`rate_limit`: bump the counter, revert the item to `'pending'` (retryCount
untouched), raise `isRateLimited`, drop `isUploading`, schedule
`rateLimitTimerRef`.  `error`: recompute `retryCount` from the snapshot;
on final failure set `'error'`/`'Max retries exceeded'` and upsert the
snapshot (with the new status and count) into IndexedDB, otherwise revert to
`'pending'` with the retry message; schedule `nextTimerRef`. -/
def completeAttempt (s : EngineState) (it : Item) (o : Outcome) : EngineState :=
  match o with
  | Outcome.success =>
      { s with
        consecutiveRateLimits := 0
        queue := s.queue.map fun q =>
          if q.id = it.id then { q with status := Status.success } else q
        spillover := removeFromOfflineQueue s.spillover it.id
        conts := s.conts ++ [Callback.nextTimer] }
  | Outcome.rateLimit =>
      { s with
        consecutiveRateLimits := s.consecutiveRateLimits + 1
        queue := s.queue.map fun q =>
          if q.id = it.id then { q with status := Status.pending } else q
        isRateLimited := true
        isUploading := false
        conts := s.conts ++ [Callback.rateLimitTimer] }
  | Outcome.error =>
      let newRetryCount := it.retryCount + 1
      { s with
        queue := s.queue.map fun q =>
          if q.id = it.id then
            { q with
              status := if MAX_RETRIES ≤ newRetryCount then Status.error
                        else Status.pending
              retryCount := newRetryCount
              errorMessage := some (if MAX_RETRIES ≤ newRetryCount then
                  "Max retries exceeded"
                else
                  "Upload failed, retry " ++ toString newRetryCount ++ "/" ++
                    toString MAX_RETRIES) }
          else q
        spillover :=
          if MAX_RETRIES ≤ newRetryCount then
            saveToOfflineQueue s.spillover
              { it with status := Status.error, retryCount := newRetryCount }
          else s.spillover
        conts := s.conts ++ [Callback.nextTimer] }

/-- `startProcessing` (lines 228-232): re-entry guard on `processingRef` and
`mountedRef`, then set the flag and run `processNext`. -/
def startProcessing (s : EngineState) : EngineState :=
  if s.processing || !s.mounted then s
  else tickStart { s with processing := true }

/-- The auto-start effect (lines 291-299): when a pending item below the
retry ceiling exists and neither the processing flag nor the rate-limit
pause is up, call `startProcessing`. -/
def autoStartStep (s : EngineState) : EngineState :=
  if (nextEligible s.queue).isSome && !s.processing && !s.isRateLimited then
    startProcessing s
  else s

/-- `addToQueue` (lines 237-251): append a fresh pending item with
`retryCount = 0`. -/
def addToQueue (s : EngineState) (img : String) : EngineState :=
  { s with
    queue := s.queue ++
      [{ id := s.nextId
         imageBase64 := img
         status := Status.pending
         retryCount := 0
         errorMessage := none }]
    nextId := s.nextId + 1 }

/-- True of the continuations that survive `clearTimeout`: in-flight adapter
calls are promises, not timers, and cannot be cancelled. -/
def isAttempt (c : Callback) : Bool :=
  match c with
  | Callback.attempt _ => true
  | _ => false

/-- Environment events driving the hook. `complete i o` resolves the i-th
outstanding continuation when it is an in-flight attempt; `timerFire i`
fires the i-th when it is a scheduled timer. -/
inductive Event where
  | enqueue (img : String)
  | autoStart
  | complete (i : Nat) (o : Outcome)
  | timerFire (i : Nat)
  | clearQueue
  | retryFailed
  | unmount
  | loadOffline
deriving DecidableEq, Repr

/-- One transition of the hook.
`complete`: the awaited `uploadItem` resolves; the continuation is consumed;
the `if (!mountedRef.current) return;` on line 143 discards the result when
unmounted, otherwise the outcome branch runs.
`timerFire`: the `setTimeout` callback runs; both callbacks check
`mountedRef` before calling `processNext`, and the rate-limit callback also
clears `isRateLimited` (lines 156-158, 182-187, 219-221).
`clearQueue` (lines 269-274): empty the queue, drop `processingRef`, cancel
both timers (in-flight attempts keep running; IndexedDB untouched).
`retryFailed` (lines 256-264), `loadOffline` (lines 279-288: append the
stored items when the store is non-empty), and unmount (lines 46-53: clear
`mountedRef`, cancel both timers). -/
def step (s : EngineState) : Event → EngineState
  | Event.enqueue img => addToQueue s img
  | Event.autoStart => autoStartStep s
  | Event.complete i o =>
      match s.conts[i]? with
      | some (Callback.attempt it) =>
          let s1 := { s with conts := s.conts.eraseIdx i }
          if s1.mounted then completeAttempt s1 it o else s1
      | _ => s
  | Event.timerFire i =>
      match s.conts[i]? with
      | some Callback.nextTimer =>
          let s1 := { s with conts := s.conts.eraseIdx i }
          if s1.mounted then tickStart s1 else s1
      | some Callback.rateLimitTimer =>
          let s1 := { s with conts := s.conts.eraseIdx i }
          if s1.mounted then tickStart { s1 with isRateLimited := false } else s1
      | _ => s
  | Event.clearQueue =>
      { s with
        queue := []
        processing := false
        conts := s.conts.filter isAttempt }
  | Event.retryFailed => { s with queue := retryFailed s.queue }
  | Event.unmount =>
      { s with mounted := false, conts := s.conts.filter isAttempt }
  | Event.loadOffline =>
      if s.spillover.isEmpty then s
      else { s with queue := s.queue ++ s.spillover }

/-- Run a sequence of events from a state. -/
def run (s : EngineState) (es : List Event) : EngineState :=
  es.foldl step s

/-- Number of queue items currently `'uploading'` (the code's `in_flight`). -/
def uploadingCount (q : List Item) : Nat :=
  (q.filter fun it => it.status == Status.uploading).length

/-- The event alphabet of claim C1: enqueue, tick-completion, timer-expiry,
plus the auto-start effect that begins processing. -/
def isCoreEvent : Event → Bool
  | Event.enqueue _ => true
  | Event.autoStart => true
  | Event.complete _ _ => true
  | Event.timerFire _ => true
  | _ => false

/-- `getBackoffDelay` (`helpers.ts` lines 108-117) with default `baseDelay`
1000 and `maxDelay` 30000.  `u` stands for the `Math.random()` draw in
`[0, 1)`: `delay = min(1000 * 2^attempt, 30000)`, jitter
`= delay * 0.1 * (u * 2 - 1)` (±10 %), result `= Math.floor(delay + jitter)`. -/
def getBackoffDelay (attempt : Nat) (u : ℚ) : ℤ :=
  let delay : ℚ := min (1000 * 2 ^ attempt) 30000
  let jitter : ℚ := delay * (1 / 10) * (u * 2 - 1)
  ⌊delay + jitter⌋

/-- The global rate-limit pause (`useUploadQueue.ts` lines 176-179):
`backoffMs = min(30000 * 2^(hitCount - 1), 180000)`, plus a jitter `j` drawn
from `[0, 5000)` (`Math.random() * 5000`); the sum feeds `setTimeout`. -/
def rateLimitPauseMs (hits : Nat) (j : ℚ) : ℚ :=
  min (30000 * 2 ^ (hits - 1)) 180000 + j

/-- Sample items and states used by the closed witness theorems. -/
def itemFresh : Item :=
  { id := 0, imageBase64 := "a", status := Status.pending, retryCount := 0,
    errorMessage := none }

/-- A permanently failed item (at the retry ceiling). -/
def itemFailed : Item :=
  { id := 0, imageBase64 := "x", status := Status.error, retryCount := 5,
    errorMessage := some "Max retries exceeded" }

/-- An eligible pending item behind `itemFailed`. -/
def itemReady : Item :=
  { id := 1, imageBase64 := "y", status := Status.pending, retryCount := 0,
    errorMessage := none }

/-- A queue whose first item is ineligible and whose second is eligible. -/
def sampleState : EngineState :=
  { initState with queue := [itemFailed, itemReady], nextId := 2 }

/-- The state right after enqueueing one item and the auto-start effect:
one upload is in flight. -/
def startedState : EngineState :=
  run initState [Event.enqueue "a", Event.autoStart]

/-- Scenario-B trace: one item enqueued, five consecutive recoverable-error
outcomes (each completion schedules the inter-item timer, whose firing
starts the next attempt). -/
def traceFiveErrors : List Event :=
  [Event.enqueue "img", Event.autoStart,
   Event.complete 0 Outcome.error, Event.timerFire 0,
   Event.complete 0 Outcome.error, Event.timerFire 0,
   Event.complete 0 Outcome.error, Event.timerFire 0,
   Event.complete 0 Outcome.error, Event.timerFire 0,
   Event.complete 0 Outcome.error]

/-- Scenario-D trace: one item enqueued, processing started (upload in
flight), then `clearQueue` while the adapter call is still pending. -/
def traceClearMidFlight : List Event :=
  [Event.enqueue "a", Event.autoStart, Event.clearQueue]

lemma backoffBase_bounds (n : Nat) :
    (1000 : ℚ) ≤ min (1000 * 2 ^ n) 30000 ∧ min (1000 * 2 ^ n) 30000 ≤ (30000 : ℚ) := by
  constructor
  · apply le_min
    · have h : (1:ℚ) ≤ 2 ^ n := one_le_pow₀ (by norm_num)
      nlinarith
    · norm_num
  · exact min_le_right _ _

lemma backoffBase_mono {a b : Nat} (hab : a ≤ b) :
    min ((1000 : ℚ) * 2 ^ a) 30000 ≤ min (1000 * 2 ^ b) 30000 := by
  apply min_le_min _ le_rfl
  have h : (2:ℚ) ^ a ≤ 2 ^ b := pow_le_pow_right₀ (by norm_num) hab
  nlinarith

/-- Claim C6: for every attempt and every jitter draw `u ∈ [0,1)`, the
per-item backoff delay equals `floor(min(1000·2^attempt, 30000) + jitter)`
with jitter in the ±10 % band (this is the definition of `getBackoffDelay`,
translated from `helpers.ts`); the result is never negative, never exceeds
`cap · 1.1 = 33000` ms, and is monotonically non-decreasing in the attempt
number for every fixed jitter draw (hence also in expectation). -/
theorem getBackoffDelay_spec (a : Nat) (u : ℚ) (h0 : 0 ≤ u) (h1 : u < 1) :
    0 ≤ getBackoffDelay a u ∧ getBackoffDelay a u ≤ 33000 ∧
    ∀ b, a ≤ b → getBackoffDelay a u ≤ getBackoffDelay b u := by
  have val_eq : ∀ n : Nat,
      min ((1000 : ℚ) * 2 ^ n) 30000 + min ((1000 : ℚ) * 2 ^ n) 30000 * (1 / 10) * (u * 2 - 1)
        = min ((1000 : ℚ) * 2 ^ n) 30000 * (9 + 2 * u) / 10 := by
    intro n; ring
  refine ⟨?_, ?_, ?_⟩
  · have hb := backoffBase_bounds a
    simp only [getBackoffDelay]
    rw [val_eq a]
    apply Int.floor_nonneg.mpr
    have h9 : (0:ℚ) ≤ 9 + 2 * u := by linarith
    positivity
  · have hb := backoffBase_bounds a
    simp only [getBackoffDelay]
    rw [val_eq a]
    have hle : min ((1000 : ℚ) * 2 ^ a) 30000 * (9 + 2 * u) / 10 ≤ 33000 := by
      nlinarith [hb.1, hb.2]
    calc ⌊min ((1000 : ℚ) * 2 ^ a) 30000 * (9 + 2 * u) / 10⌋
        ≤ ⌊(33000 : ℚ)⌋ := Int.floor_le_floor hle
      _ = 33000 := by norm_num
  · intro b hab
    simp only [getBackoffDelay]
    rw [val_eq a, val_eq b]
    apply Int.floor_le_floor
    have hmono := backoffBase_mono hab
    have h9 : (0:ℚ) ≤ 9 + 2 * u := by linarith
    have := mul_le_mul_of_nonneg_right hmono h9
    linarith

theorem getBackoffDelay_spec_witness :
    0 ≤ getBackoffDelay 0 (1 / 2) ∧ getBackoffDelay 0 (1 / 2) ≤ 33000 ∧
    ∀ b, 0 ≤ b → getBackoffDelay 0 (1 / 2) ≤ getBackoffDelay b (1 / 2) :=
  getBackoffDelay_spec 0 (1 / 2) (by norm_num) (by norm_num)

/-- Claim C7: for every consecutive rate-limit hit count `hits ≥ 1` and
every jitter `j ∈ [0, 5000)` ms, the global rate-limit pause equals
`min(30000·2^(hits−1), 180000) + j`, giving tiers 30 s, 60 s, 120 s and a
180 s cap (plus jitter), always in `[30000, 185000)` ms. -/
theorem rateLimitPauseMs_spec (hits : Nat) (j : ℚ)
    (hh : 1 ≤ hits) (hj0 : 0 ≤ j) (hj5 : j < 5000) :
    (hits = 1 → rateLimitPauseMs hits j = 30000 + j) ∧
    (hits = 2 → rateLimitPauseMs hits j = 60000 + j) ∧
    (hits = 3 → rateLimitPauseMs hits j = 120000 + j) ∧
    (4 ≤ hits → rateLimitPauseMs hits j = 180000 + j) ∧
    30000 ≤ rateLimitPauseMs hits j ∧ rateLimitPauseMs hits j < 185000 := by
  refine ⟨?_, ?_, ?_, ?_, ?_, ?_⟩
  · rintro rfl; simp [rateLimitPauseMs]; norm_num
  · rintro rfl; simp [rateLimitPauseMs]; norm_num
  · rintro rfl; simp [rateLimitPauseMs]; norm_num
  · intro h4
    have hpow : (2:ℚ) ^ 3 ≤ 2 ^ (hits - 1) := pow_le_pow_right₀ (by norm_num) (by omega)
    have : min ((30000:ℚ) * 2 ^ (hits - 1)) 180000 = 180000 := by
      apply min_eq_right; nlinarith
    rw [rateLimitPauseMs, this]
  · have h1 : (1:ℚ) ≤ 2 ^ (hits - 1) := one_le_pow₀ (by norm_num)
    have : (30000:ℚ) ≤ min ((30000:ℚ) * 2 ^ (hits - 1)) 180000 := by
      apply le_min; nlinarith; norm_num
    rw [rateLimitPauseMs]; linarith
  · have : min ((30000:ℚ) * 2 ^ (hits - 1)) 180000 ≤ 180000 := min_le_right _ _
    rw [rateLimitPauseMs]; linarith

theorem rateLimitPauseMs_spec_witness :
    ((1:Nat) = 1 → rateLimitPauseMs 1 0 = 30000 + 0) ∧
    ((1:Nat) = 2 → rateLimitPauseMs 1 0 = 60000 + 0) ∧
    ((1:Nat) = 3 → rateLimitPauseMs 1 0 = 120000 + 0) ∧
    (4 ≤ (1:Nat) → rateLimitPauseMs 1 0 = 180000 + 0) ∧
    30000 ≤ rateLimitPauseMs 1 0 ∧ rateLimitPauseMs 1 0 < 185000 :=
  rateLimitPauseMs_spec 1 0 (by norm_num) (by norm_num) (by norm_num)

lemma resetFailedItem_idem (it : Item) :
    resetFailedItem (resetFailedItem it) = resetFailedItem it := by
  unfold resetFailedItem
  by_cases h : (it.status == Status.error && decide (MAX_RETRIES ≤ it.retryCount)) = true
  · simp [h]
  · simp [h]

/-- Claim C8: `retryFailed` maps each item individually; an item with
`status = error` and `retryCount ≥ MAX_RETRIES` is reset to pending with
`retryCount = 0`, every other item is left unchanged; and the operation is
idempotent: applying it twice with no intervening state change yields the
same queue as applying it once. -/
theorem retryFailed_spec (q : List Item) :
    retryFailed (retryFailed q) = retryFailed q ∧
    (∀ i : Nat, (retryFailed q)[i]? = q[i]?.map resetFailedItem) ∧
    (∀ it : Item, it.status = Status.error → MAX_RETRIES ≤ it.retryCount →
      resetFailedItem it = { it with status := Status.pending, retryCount := 0 }) ∧
    (∀ it : Item, ¬(it.status = Status.error ∧ MAX_RETRIES ≤ it.retryCount) →
      resetFailedItem it = it) := by
  refine ⟨?_, ?_, ?_, ?_⟩
  · unfold retryFailed
    rw [List.map_map]
    apply List.map_congr_left
    intro it _
    exact resetFailedItem_idem it
  · intro i; unfold retryFailed; exact List.getElem?_map ..
  · intro it hs hr; unfold resetFailedItem; simp [hs, hr]
  · intro it h; unfold resetFailedItem
    rcases Decidable.em (it.status = Status.error) with hs | hs
    · have hr : ¬ MAX_RETRIES ≤ it.retryCount := fun hr => h ⟨hs, hr⟩
      simp [hs, hr]
    · simp [hs]

theorem retryFailed_spec_witness :
    retryFailed (retryFailed [itemFailed, itemReady]) = retryFailed [itemFailed, itemReady] ∧
    resetFailedItem itemFailed =
      { itemFailed with status := Status.pending, retryCount := 0 } ∧
    resetFailedItem itemReady = itemReady :=
  ⟨(retryFailed_spec [itemFailed, itemReady]).1,
   (retryFailed_spec []).2.2.1 itemFailed (by decide) (by decide),
   (retryFailed_spec []).2.2.2 itemReady (by decide)⟩

/-- Claim C10: `clearQueue` empties the in-memory queue, drops the
processing flag and cancels timers, but leaves the rate-limit flag, the
consecutive-429 counter, `isUploading` and — crucially — the durable
spillover store untouched; a subsequent `loadOfflineQueue` appends the
stored items after whatever is already in the queue, so items persisted as
permanently failed before `clearQueue` are re-hydrated afterwards. -/
theorem clearQueue_frame (s : EngineState) :
    (step s Event.clearQueue).spillover = s.spillover ∧
    (step s Event.clearQueue).queue = [] ∧
    (step s Event.clearQueue).processing = false ∧
    (step s Event.clearQueue).isUploading = s.isUploading ∧
    (step s Event.clearQueue).isRateLimited = s.isRateLimited ∧
    (step s Event.clearQueue).consecutiveRateLimits = s.consecutiveRateLimits ∧
    (step s Event.clearQueue).mounted = s.mounted ∧
    (∀ t : EngineState, (step t Event.loadOffline).queue = t.queue ++ t.spillover) ∧
    (step (step s Event.clearQueue) Event.loadOffline).queue = s.spillover := by
  have hload : ∀ t : EngineState, (step t Event.loadOffline).queue = t.queue ++ t.spillover := by
    intro t
    show (if t.spillover.isEmpty then t else { t with queue := t.queue ++ t.spillover }).queue
        = t.queue ++ t.spillover
    by_cases h : t.spillover.isEmpty
    · simp [h, List.isEmpty_iff.mp h]
    · simp [h]
  refine ⟨rfl, rfl, rfl, rfl, rfl, rfl, rfl, hload, ?_⟩
  rw [hload]
  rfl

/-- Claim C4: a `rate_limit` outcome increments the engine's
consecutive-rate-limit counter by exactly 1 and reverts the attempted item
to `pending` while leaving its `retryCount` and every other field unchanged
(the record update touches only `status`), and every other queue item
unchanged; a `success` outcome resets the counter to 0. -/
theorem rateLimit_outcome_spec (s : EngineState) (i : Nat) (it : Item)
    (hc : s.conts[i]? = some (Callback.attempt it)) (hm : s.mounted = true) :
    (step s (Event.complete i Outcome.rateLimit)).consecutiveRateLimits
        = s.consecutiveRateLimits + 1 ∧
    (∀ j : Nat, (step s (Event.complete i Outcome.rateLimit)).queue[j]?
        = s.queue[j]?.map fun q =>
            if q.id = it.id then { q with status := Status.pending } else q) ∧
    (step s (Event.complete i Outcome.success)).consecutiveRateLimits = 0 := by
  refine ⟨?_, ?_, ?_⟩
  · show (match s.conts[i]? with
      | some (Callback.attempt it) =>
          let s1 := { s with conts := s.conts.eraseIdx i }
          if s1.mounted then completeAttempt s1 it Outcome.rateLimit else s1
      | _ => s).consecutiveRateLimits = s.consecutiveRateLimits + 1
    rw [hc]
    simp [completeAttempt, hm]
  · intro j
    show (match s.conts[i]? with
      | some (Callback.attempt it) =>
          let s1 := { s with conts := s.conts.eraseIdx i }
          if s1.mounted then completeAttempt s1 it Outcome.rateLimit else s1
      | _ => s).queue[j]? = _
    rw [hc]
    simp [completeAttempt, hm, List.getElem?_map]
  · show (match s.conts[i]? with
      | some (Callback.attempt it) =>
          let s1 := { s with conts := s.conts.eraseIdx i }
          if s1.mounted then completeAttempt s1 it Outcome.success else s1
      | _ => s).consecutiveRateLimits = 0
    rw [hc]
    simp [completeAttempt, hm]

theorem rateLimit_outcome_spec_witness :
    (step startedState (Event.complete 0 Outcome.rateLimit)).consecutiveRateLimits
        = startedState.consecutiveRateLimits + 1 ∧
    (∀ j : Nat, (step startedState (Event.complete 0 Outcome.rateLimit)).queue[j]?
        = startedState.queue[j]?.map fun q =>
            if q.id = itemFresh.id then { q with status := Status.pending } else q) ∧
    (step startedState (Event.complete 0 Outcome.success)).consecutiveRateLimits = 0 :=
  rateLimit_outcome_spec startedState 0 itemFresh (by decide) (by decide)

/-- Claim C3 (amended): a recoverable-error outcome on the in-flight item
(snapshot `it`, necessarily with `retryCount < MAX_RETRIES` when chosen)
sets its `retryCount` to exactly `it.retryCount + 1`; the status becomes
`error` exactly when the incremented count reaches `MAX_RETRIES = 5`
(otherwise the item reverts to `pending` with a retry message), and exactly
at that terminal transition the item is upserted into the durable spillover
store with the new status and count.  Amendment forced by
`spillover_message_cex`: the persisted record is the pre-attempt snapshot
(plus new status/count), so its `errorMessage` is the previous retry
message, not the terminal `'Max retries exceeded'` reason. -/
theorem markFailed_spec (s : EngineState) (i : Nat) (it : Item)
    (hc : s.conts[i]? = some (Callback.attempt it))
    (hm : s.mounted = true) (hr : it.retryCount < MAX_RETRIES) :
    (∀ j : Nat, (step s (Event.complete i Outcome.error)).queue[j]?
        = s.queue[j]?.map fun q =>
          if q.id = it.id then
            { q with
              status := if it.retryCount + 1 = MAX_RETRIES then Status.error
                        else Status.pending
              retryCount := it.retryCount + 1
              errorMessage := some (if it.retryCount + 1 = MAX_RETRIES then
                  "Max retries exceeded"
                else "Upload failed, retry " ++ toString (it.retryCount + 1)
                  ++ "/" ++ toString MAX_RETRIES) }
          else q) ∧
    (it.retryCount + 1 = MAX_RETRIES →
      (step s (Event.complete i Outcome.error)).spillover
        = saveToOfflineQueue s.spillover
            { it with status := Status.error, retryCount := it.retryCount + 1 }) ∧
    (it.retryCount + 1 ≠ MAX_RETRIES →
      (step s (Event.complete i Outcome.error)).spillover = s.spillover) := by
  have hstep : step s (Event.complete i Outcome.error)
      = completeAttempt { s with conts := s.conts.eraseIdx i } it Outcome.error := by
    show (match s.conts[i]? with
      | some (Callback.attempt it) =>
          let s1 := { s with conts := s.conts.eraseIdx i }
          if s1.mounted then completeAttempt s1 it Outcome.error else s1
      | _ => s) = _
    rw [hc]
    simp [hm]
  by_cases hfin : it.retryCount + 1 = MAX_RETRIES
  · have hle : MAX_RETRIES ≤ it.retryCount + 1 := le_of_eq hfin.symm
    refine ⟨?_, fun _ => ?_, fun h => absurd hfin h⟩
    · intro j
      rw [hstep]
      simp only [completeAttempt, hfin, hle, if_pos, if_true]
      simp [List.getElem?_map, hle, hfin]
    · rw [hstep]
      simp [completeAttempt, hle]
  · have hle : ¬ MAX_RETRIES ≤ it.retryCount + 1 := by
      unfold MAX_RETRIES at *; omega
    refine ⟨?_, fun h => absurd h hfin, fun _ => ?_⟩
    · intro j
      rw [hstep]
      simp [completeAttempt, List.getElem?_map, hle, hfin]
    · rw [hstep]
      simp [completeAttempt, hle]

theorem markFailed_spec_witness :
    (∀ j : Nat, (step startedState (Event.complete 0 Outcome.error)).queue[j]?
        = startedState.queue[j]?.map fun q =>
          if q.id = itemFresh.id then
            { q with
              status := if itemFresh.retryCount + 1 = MAX_RETRIES then Status.error
                        else Status.pending
              retryCount := itemFresh.retryCount + 1
              errorMessage := some (if itemFresh.retryCount + 1 = MAX_RETRIES then
                  "Max retries exceeded"
                else "Upload failed, retry " ++ toString (itemFresh.retryCount + 1)
                  ++ "/" ++ toString MAX_RETRIES) }
          else q) ∧
    (itemFresh.retryCount + 1 = MAX_RETRIES →
      (step startedState (Event.complete 0 Outcome.error)).spillover
        = saveToOfflineQueue startedState.spillover
            { itemFresh with status := Status.error, retryCount := itemFresh.retryCount + 1 }) ∧
    (itemFresh.retryCount + 1 ≠ MAX_RETRIES →
      (step startedState (Event.complete 0 Outcome.error)).spillover
        = startedState.spillover) :=
  markFailed_spec startedState 0 itemFresh (by decide) (by decide) (by decide)

/-- Claim C3 counterexample: after one enqueue and five consecutive
recoverable errors, the queue item carries the terminal failure reason
`'Max retries exceeded'`, but the spillover entry written at the terminal
transition carries the stale snapshot message `'Upload failed, retry 4/5'`
— the item is not persisted together with its (terminal) failure reason
as the claim states. -/
theorem spillover_message_cex :
    (run initState traceFiveErrors).queue =
      [{ id := 0, imageBase64 := "img", status := Status.error, retryCount := 5,
         errorMessage := some "Max retries exceeded" }] ∧
    (run initState traceFiveErrors).spillover =
      [{ id := 0, imageBase64 := "img", status := Status.error, retryCount := 5,
         errorMessage := some "Upload failed, retry 4/5" }] ∧
    (run initState traceFiveErrors).spillover.map Item.errorMessage ≠
      (run initState traceFiveErrors).queue.map Item.errorMessage := by
  refine ⟨by decide, by decide, by decide⟩

/-- Claim C5 counterexample: enqueue, start processing (one upload in
flight), then `clearQueue`.  When the in-flight adapter call later resolves
with `rate_limit`, state **is** mutated: the rate-limited flag flips to
true, the consecutive-rate-limit counter increments from 0 to 1, and a new
rate-limit timer is scheduled — `clearQueue` resets `processingRef` and
cancels timers but the resolving tick checks only `mountedRef`. -/
theorem clearQueue_mutation_cex :
    (run initState traceClearMidFlight).isRateLimited = false ∧
    (run initState traceClearMidFlight).consecutiveRateLimits = 0 ∧
    (run initState traceClearMidFlight).conts = [Callback.attempt itemFresh] ∧
    (step (run initState traceClearMidFlight) (Event.complete 0 Outcome.rateLimit)).isRateLimited
      = true ∧
    (step (run initState traceClearMidFlight) (Event.complete 0 Outcome.rateLimit)).consecutiveRateLimits
      = 1 ∧
    (step (run initState traceClearMidFlight) (Event.complete 0 Outcome.rateLimit)).conts
      = [Callback.rateLimitTimer] := by
  refine ⟨by decide, by decide, by decide, by decide, by decide, by decide⟩

/-- Claim C5 (amended): after teardown (unmount), no further state
mutation occurs — a resolving in-flight call or a firing timer leaves the
queue, both flags, the counter and the spillover store unchanged (only the
consumed continuation disappears), and unmount itself cancels all pending
timers; after `clearQueue` mid-processing the queue itself stays empty (a
resolving tick cannot resurrect items), but — as `clearQueue_mutation_cex`
shows — the resolving tick may still mutate the rate-limit flag, the
consecutive-rate-limit counter and the timers, because only the mounted
flag is checked. -/
theorem teardown_no_mutation (s : EngineState) (i : Nat) (o : Outcome) :
    (s.mounted = false →
      (step s (Event.complete i o)).queue = s.queue ∧
      (step s (Event.complete i o)).isRateLimited = s.isRateLimited ∧
      (step s (Event.complete i o)).consecutiveRateLimits = s.consecutiveRateLimits ∧
      (step s (Event.complete i o)).processing = s.processing ∧
      (step s (Event.complete i o)).isUploading = s.isUploading ∧
      (step s (Event.complete i o)).spillover = s.spillover ∧
      (step s (Event.timerFire i)).queue = s.queue ∧
      (step s (Event.timerFire i)).isRateLimited = s.isRateLimited ∧
      (step s (Event.timerFire i)).consecutiveRateLimits = s.consecutiveRateLimits ∧
      (step s (Event.timerFire i)).processing = s.processing ∧
      (step s (Event.timerFire i)).isUploading = s.isUploading ∧
      (step s (Event.timerFire i)).spillover = s.spillover) ∧
    ((step s Event.unmount).mounted = false ∧
      (step s Event.unmount).conts = s.conts.filter isAttempt) ∧
    (s.queue = [] → (step s (Event.complete i o)).queue = []) := by
  refine ⟨?_, ⟨rfl, rfl⟩, ?_⟩
  · intro hm
    have hc : ∀ o2 : Outcome,
        step s (Event.complete i o2)
          = match s.conts[i]? with
            | some (Callback.attempt it) => { s with conts := s.conts.eraseIdx i }
            | _ => s := by
      intro o2
      show (match s.conts[i]? with
        | some (Callback.attempt it) =>
            let s1 := { s with conts := s.conts.eraseIdx i }
            if s1.mounted then completeAttempt s1 it o2 else s1
        | _ => s) = _
      cases hg : s.conts[i]? with
      | none => rfl
      | some c => cases c with
        | attempt it => simp [hm]
        | nextTimer => rfl
        | rateLimitTimer => rfl
    have ht : step s (Event.timerFire i)
          = match s.conts[i]? with
            | some Callback.nextTimer => { s with conts := s.conts.eraseIdx i }
            | some Callback.rateLimitTimer => { s with conts := s.conts.eraseIdx i }
            | _ => s := by
      show (match s.conts[i]? with
        | some Callback.nextTimer =>
            let s1 := { s with conts := s.conts.eraseIdx i }
            if s1.mounted then tickStart s1 else s1
        | some Callback.rateLimitTimer =>
            let s1 := { s with conts := s.conts.eraseIdx i }
            if s1.mounted then tickStart { s1 with isRateLimited := false } else s1
        | _ => s) = _
      cases hg : s.conts[i]? with
      | none => rfl
      | some c => cases c with
        | attempt it => rfl
        | nextTimer => simp [hm]
        | rateLimitTimer => simp [hm]
    rw [hc, ht]
    cases hg : s.conts[i]? with
    | none => exact ⟨rfl, rfl, rfl, rfl, rfl, rfl, rfl, rfl, rfl, rfl, rfl, rfl⟩
    | some c => cases c <;>
        exact ⟨rfl, rfl, rfl, rfl, rfl, rfl, rfl, rfl, rfl, rfl, rfl, rfl⟩
  · intro hq
    show (match s.conts[i]? with
      | some (Callback.attempt it) =>
          let s1 := { s with conts := s.conts.eraseIdx i }
          if s1.mounted then completeAttempt s1 it o else s1
      | _ => s).queue = []
    cases hg : s.conts[i]? with
    | none => exact hq
    | some c => cases c with
      | attempt it =>
          by_cases hm2 : s.mounted = true
          · simp only [hm2]
            cases o <;> simp [completeAttempt, hq]
          · simp only [Bool.not_eq_true] at hm2
            simp [hm2, hq]
      | nextTimer => exact hq
      | rateLimitTimer => exact hq

/-- The engine right after unmounting while one upload is in flight. -/
def unmountedState : EngineState := step startedState Event.unmount

theorem teardown_no_mutation_witness :
    ((step unmountedState (Event.complete 0 Outcome.rateLimit)).queue = unmountedState.queue ∧
      (step unmountedState (Event.complete 0 Outcome.rateLimit)).isRateLimited = unmountedState.isRateLimited ∧
      (step unmountedState (Event.complete 0 Outcome.rateLimit)).consecutiveRateLimits = unmountedState.consecutiveRateLimits ∧
      (step unmountedState (Event.complete 0 Outcome.rateLimit)).processing = unmountedState.processing ∧
      (step unmountedState (Event.complete 0 Outcome.rateLimit)).isUploading = unmountedState.isUploading ∧
      (step unmountedState (Event.complete 0 Outcome.rateLimit)).spillover = unmountedState.spillover ∧
      (step unmountedState (Event.timerFire 0)).queue = unmountedState.queue ∧
      (step unmountedState (Event.timerFire 0)).isRateLimited = unmountedState.isRateLimited ∧
      (step unmountedState (Event.timerFire 0)).consecutiveRateLimits = unmountedState.consecutiveRateLimits ∧
      (step unmountedState (Event.timerFire 0)).processing = unmountedState.processing ∧
      (step unmountedState (Event.timerFire 0)).isUploading = unmountedState.isUploading ∧
      (step unmountedState (Event.timerFire 0)).spillover = unmountedState.spillover) ∧
    ((step unmountedState Event.unmount).mounted = false ∧
      (step unmountedState Event.unmount).conts = unmountedState.conts.filter isAttempt) := by
  have h := teardown_no_mutation unmountedState 0 Outcome.rateLimit
  exact ⟨h.1 (by decide), h.2.1⟩

lemma find?_first {α : Type} (p : α → Bool) :
    ∀ (l : List α) (a : α), l.find? p = some a →
      ∃ i : Nat, l[i]? = some a ∧ p a = true ∧
        ∀ j : Nat, j < i → ∀ b, l[j]? = some b → p b = false := by
  intro l
  induction l with
  | nil => intro a h; simp [List.find?] at h
  | cons x t ih =>
      intro a h
      by_cases hx : p x = true
      · rw [List.find?_cons_of_pos t hx] at h
        obtain rfl : x = a := by injection h
        exact ⟨0, by simp, hx, fun j hj b hb => absurd hj (by omega)⟩
      · have hx2 : p x = false := by
          cases hpx : p x
          · rfl
          · exact absurd hpx hx
        rw [List.find?_cons_of_neg t (by simp [hx2])] at h
        obtain ⟨i, hi, hpa, hfirst⟩ := ih a h
        refine ⟨i + 1, by simpa using hi, hpa, ?_⟩
        intro j hj b hb
        cases j with
        | zero =>
            have hbx : x = b := by simpa using hb
            rw [← hbx]; exact hx2
        | succ j =>
            exact hfirst j (by omega) b (by simpa using hb)

/-- Claim C2: the item chosen by a `processNext` tick is exactly the first
item in insertion order whose status is `pending` and whose `retryCount`
is below `MAX_RETRIES` (every strictly earlier queue position is
ineligible), and that item is marked `uploading` with its upload left in
flight; if no such item exists the engine goes idle (processing flag and
`isUploading` drop, queue untouched).  Since `enqueue` appends and the
queue is never reordered, attempts occur in strict insertion order among
eligible items. -/
theorem processNext_order (s : EngineState) (hm : s.mounted = true) :
    (nextEligible s.queue = none →
      (tickStart s).processing = false ∧ (tickStart s).isUploading = false ∧
      (tickStart s).queue = s.queue ∧ (tickStart s).conts = s.conts) ∧
    (∀ it : Item, nextEligible s.queue = some it →
      eligible it = true ∧
      (∃ i : Nat, s.queue[i]? = some it ∧
        ∀ j : Nat, j < i → ∀ q : Item, s.queue[j]? = some q → eligible q = false) ∧
      (tickStart s).queue = markUploading s.queue it.id ∧
      (tickStart s).conts = s.conts ++ [Callback.attempt it] ∧
      (tickStart s).isUploading = true ∧
      (tickStart s).processing = s.processing) := by
  constructor
  · intro hnone
    unfold tickStart
    rw [hm, hnone]
    exact ⟨rfl, rfl, rfl, rfl⟩
  · intro it hsome
    have hp : eligible it = true := List.find?_some hsome
    obtain ⟨i, hi, _, hfirst⟩ := find?_first eligible s.queue it hsome
    refine ⟨hp, ⟨i, hi, hfirst⟩, ?_, ?_, ?_, ?_⟩ <;>
      · unfold tickStart
        rw [hm, hsome]
        rfl

theorem processNext_order_witness :
    eligible itemReady = true ∧
    (∃ i : Nat, sampleState.queue[i]? = some itemReady ∧
      ∀ j : Nat, j < i → ∀ q : Item, sampleState.queue[j]? = some q → eligible q = false) ∧
    (tickStart sampleState).queue = markUploading sampleState.queue itemReady.id ∧
    (tickStart sampleState).conts = sampleState.conts ++ [Callback.attempt itemReady] ∧
    (tickStart sampleState).isUploading = true ∧
    (tickStart sampleState).processing = sampleState.processing :=
  (processNext_order sampleState (by decide)).2 itemReady (by decide)

/-- Count of queue items bearing one particular status. -/
def countStatus (q : List Item) (st : Status) : Nat :=
  (q.filter fun it => it.status == st).length

/-- Reachable-state invariant: every `'error'` item — in the queue or in the
spillover store — is at the retry ceiling. -/
def goodStore (s : EngineState) : Prop :=
  (∀ it ∈ s.queue, it.status = Status.error → MAX_RETRIES ≤ it.retryCount) ∧
  (∀ it ∈ s.spillover, it.status = Status.error → MAX_RETRIES ≤ it.retryCount)

lemma mem_saveToOfflineQueue (store : List Item) (x q : Item)
    (hq : q ∈ saveToOfflineQueue store x) : q = x ∨ q ∈ store := by
  unfold saveToOfflineQueue at hq
  split at hq
  · obtain ⟨p, hp, rfl⟩ := List.mem_map.mp hq
    by_cases hid : p.id = x.id
    · rw [if_pos hid]; left; rfl
    · rw [if_neg hid]; right; exact hp
  · rcases List.mem_append.mp hq with h | h
    · right; exact h
    · left; simpa using h

lemma goodStore_tickStart (s : EngineState) (h : goodStore s) :
    goodStore (tickStart s) := by
  unfold tickStart
  split
  · cases hne : nextEligible s.queue with
    | none => exact ⟨h.1, h.2⟩
    | some it =>
        refine ⟨?_, h.2⟩
        intro q hq herr
        unfold markUploading at hq
        obtain ⟨p, hp, rfl⟩ := List.mem_map.mp hq
        by_cases hid : p.id = it.id
        · rw [if_pos hid] at herr; simp at herr
        · rw [if_neg hid] at herr ⊢; exact h.1 p hp herr
  · exact h

lemma goodStore_completeAttempt (s : EngineState) (it : Item) (o : Outcome)
    (h : goodStore s) : goodStore (completeAttempt s it o) := by
  cases o with
  | success =>
      refine ⟨?_, ?_⟩
      · intro q hq herr
        obtain ⟨p, hp, rfl⟩ := List.mem_map.mp hq
        by_cases hid : p.id = it.id
        · rw [if_pos hid] at herr; simp at herr
        · rw [if_neg hid] at herr ⊢; exact h.1 p hp herr
      · intro q hq herr
        exact h.2 q (List.mem_of_mem_filter hq) herr
  | rateLimit =>
      refine ⟨?_, h.2⟩
      intro q hq herr
      obtain ⟨p, hp, rfl⟩ := List.mem_map.mp hq
      by_cases hid : p.id = it.id
      · rw [if_pos hid] at herr; simp at herr
      · rw [if_neg hid] at herr ⊢; exact h.1 p hp herr
  | error =>
      constructor
      · intro q hq herr
        simp only [completeAttempt] at hq
        obtain ⟨p, hp, rfl⟩ := List.mem_map.mp hq
        by_cases hid : p.id = it.id
        · rw [if_pos hid] at herr ⊢
          by_cases hfin : MAX_RETRIES ≤ it.retryCount + 1
          · simpa using hfin
          · rw [if_neg hfin] at herr; simp at herr
        · rw [if_neg hid] at herr ⊢; exact h.1 p hp herr
      · intro q hq herr
        simp only [completeAttempt] at hq
        by_cases hfin : MAX_RETRIES ≤ it.retryCount + 1
        · rw [if_pos hfin] at hq
          rcases mem_saveToOfflineQueue _ _ _ hq with rfl | hold
          · simpa using hfin
          · exact h.2 q hold herr
        · rw [if_neg hfin] at hq
          exact h.2 q hq herr

lemma goodStore_step (s : EngineState) (e : Event) (h : goodStore s) :
    goodStore (step s e) := by
  cases e with
  | enqueue img =>
      simp only [step, addToQueue]
      refine ⟨?_, h.2⟩
      intro q hq herr
      rcases List.mem_append.mp hq with hold | hnew
      · exact h.1 q hold herr
      · simp at hnew
        rw [hnew] at herr
        simp at herr
  | autoStart =>
      simp only [step]
      unfold autoStartStep startProcessing
      split
      · split
        · exact h
        · exact goodStore_tickStart _ ⟨h.1, h.2⟩
      · exact h
  | complete i o =>
      simp only [step]
      cases hg : s.conts[i]? with
      | none => simp only [hg]; exact h
      | some c =>
          cases c with
          | attempt it =>
              simp only [hg]
              by_cases hm : s.mounted = true
              · simp only [hm, if_true]
                exact goodStore_completeAttempt _ it o ⟨h.1, h.2⟩
              · simp only [Bool.not_eq_true] at hm
                simp only [hm]
                exact ⟨h.1, h.2⟩
          | nextTimer => simp only [hg]; exact h
          | rateLimitTimer => simp only [hg]; exact h
  | timerFire i =>
      simp only [step]
      cases hg : s.conts[i]? with
      | none => simp only [hg]; exact h
      | some c =>
          cases c with
          | attempt it => simp only [hg]; exact h
          | nextTimer =>
              simp only [hg]
              by_cases hm : s.mounted = true
              · simp only [hm, if_true]
                exact goodStore_tickStart _ ⟨h.1, h.2⟩
              · simp only [Bool.not_eq_true] at hm
                simp only [hm]
                exact ⟨h.1, h.2⟩
          | rateLimitTimer =>
              simp only [hg]
              by_cases hm : s.mounted = true
              · simp only [hm, if_true]
                exact goodStore_tickStart _ ⟨h.1, h.2⟩
              · simp only [Bool.not_eq_true] at hm
                simp only [hm]
                exact ⟨h.1, h.2⟩
  | clearQueue =>
      simp only [step]
      refine ⟨?_, h.2⟩
      intro q hq
      simp at hq
  | retryFailed =>
      simp only [step]
      refine ⟨?_, h.2⟩
      intro q hq herr
      unfold retryFailed at hq
      obtain ⟨p, hp, rfl⟩ := List.mem_map.mp hq
      unfold resetFailedItem at herr ⊢
      by_cases hcond : (p.status == Status.error && decide (MAX_RETRIES ≤ p.retryCount)) = true
      · rw [if_pos hcond] at herr; simp at herr
      · rw [if_neg hcond] at herr ⊢; exact h.1 p hp herr
  | unmount => exact ⟨h.1, h.2⟩
  | loadOffline =>
      simp only [step]
      split
      · exact h
      · refine ⟨?_, h.2⟩
        intro q hq herr
        rcases List.mem_append.mp hq with hold | hsp
        · exact h.1 q hold herr
        · exact h.2 q hsp herr

lemma goodStore_run (es : List Event) : ∀ s : EngineState, goodStore s →
    goodStore (run s es) := by
  induction es with
  | nil => intro s h; exact h
  | cons e t ih => intro s h; exact ih (step s e) (goodStore_step s e h)

lemma goodStore_initState : goodStore initState := by
  constructor <;> intro it hit <;> simp [initState] at hit

lemma counts_split (q : List Item) :
    (q.filter fun it => it.status == Status.pending || it.status == Status.uploading).length
      = countStatus q Status.pending + countStatus q Status.uploading ∧
    countStatus q Status.success + countStatus q Status.error
      + (countStatus q Status.pending + countStatus q Status.uploading) = q.length := by
  induction q with
  | nil => simp [countStatus]
  | cons x t ih =>
      obtain ⟨ih1, ih2⟩ := ih
      cases hx : x.status <;>
        simp [countStatus, List.filter_cons, hx] at ih1 ih2 ⊢ <;> omega

lemma failed_bucket_eq (q : List Item)
    (h : ∀ it ∈ q, it.status = Status.error → MAX_RETRIES ≤ it.retryCount) :
    (q.filter fun it => it.status == Status.error && MAX_RETRIES ≤ it.retryCount).length
      = countStatus q Status.error := by
  unfold countStatus
  congr 1
  apply List.filter_congr
  intro it hit
  by_cases he : it.status = Status.error
  · have hr := h it hit he
    simp [he, hr]
  · simp [he]

/-- Claim C9: over every reachable state, `uploadProgress` counts
`success` = items with status `'success'`, `failed` = items with status
`'error'` (the code's extra `retryCount ≥ MAX_RETRIES` conjunct is
redundant because every reachable `'error'` item is at the retry ceiling —
the `goodStore` invariant), `pending` = items with status `'pending'` or
`'uploading'`; the three buckets partition the whole queue. -/
theorem progress_partition (es : List Event) :
    (uploadProgress (run initState es).queue).success
        = countStatus (run initState es).queue Status.success ∧
    (uploadProgress (run initState es).queue).failed
        = countStatus (run initState es).queue Status.error ∧
    (uploadProgress (run initState es).queue).pending
        = countStatus (run initState es).queue Status.pending
          + countStatus (run initState es).queue Status.uploading ∧
    (uploadProgress (run initState es).queue).success
      + (uploadProgress (run initState es).queue).failed
      + (uploadProgress (run initState es).queue).pending
        = (run initState es).queue.length := by
  have hg := goodStore_run es initState goodStore_initState
  have hfail := failed_bucket_eq (run initState es).queue hg.1
  have hsplit := counts_split (run initState es).queue
  refine ⟨rfl, hfail, hsplit.1, ?_⟩
  show countStatus (run initState es).queue Status.success
      + (uploadProgress (run initState es).queue).failed
      + (uploadProgress (run initState es).queue).pending
        = (run initState es).queue.length
  rw [show (uploadProgress (run initState es).queue).failed
      = countStatus (run initState es).queue Status.error from hfail]
  rw [show (uploadProgress (run initState es).queue).pending
      = countStatus (run initState es).queue Status.pending
        + countStatus (run initState es).queue Status.uploading from hsplit.1]
  exact hsplit.2

/-- The inductive invariant behind the single-in-flight guarantee, over the
core event alphabet (no `clearQueue`/`retryFailed`/unmount/re-hydration):
the engine is mounted; at most one continuation is outstanding; whenever one
is outstanding the processing flag is up (so the auto-start guard blocks a
second chain); any `'uploading'` queue item carries the id of the in-flight
snapshot, and with no in-flight attempt nothing is `'uploading'`; queue ids
are pairwise distinct and below the fresh-id counter. -/
def singleFlightInv (s : EngineState) : Prop :=
  s.mounted = true ∧
  s.conts.length ≤ 1 ∧
  (s.conts ≠ [] → s.processing = true) ∧
  (∀ it : Item, Callback.attempt it ∈ s.conts →
    ∀ q ∈ s.queue, q.status = Status.uploading → q.id = it.id) ∧
  ((∀ it : Item, Callback.attempt it ∉ s.conts) →
    ∀ q ∈ s.queue, q.status ≠ Status.uploading) ∧
  s.queue.Pairwise (fun a b => a.id ≠ b.id) ∧
  (∀ q ∈ s.queue, q.id < s.nextId)

lemma conts_singleton {cs : List Callback} {i : Nat} {c : Callback}
    (hlen : cs.length ≤ 1) (h : cs[i]? = some c) : cs = [c] ∧ i = 0 := by
  cases cs with
  | nil => simp at h
  | cons x t =>
      cases t with
      | nil =>
          cases i with
          | zero => simp at h; exact ⟨by rw [h], rfl⟩
          | succ j => simp at h
      | cons y u => simp at hlen

lemma markUploading_shape (x : Nat) (p : Item) :
    ((if p.id = x then { p with status := Status.uploading } else p)).id = p.id ∧
    (p.id ≠ x → (if p.id = x then { p with status := Status.uploading } else p) = p) := by
  by_cases h : p.id = x <;> simp [h]

lemma uploadingCount_le_one_of_key (q : List Item) (x : Nat)
    (hpw : q.Pairwise (fun a b => a.id ≠ b.id))
    (hkey : ∀ a ∈ q, a.status = Status.uploading → a.id = x) :
    uploadingCount q ≤ 1 := by
  induction q with
  | nil => simp [uploadingCount]
  | cons a t ih =>
      obtain ⟨hhead, htail⟩ := List.pairwise_cons.mp hpw
      by_cases ha : a.status = Status.uploading
      · have hax : a.id = x := hkey a (by simp) ha
        have htnone : ∀ b ∈ t, ¬(b.status == Status.uploading) = true := by
          intro b hb hbu
          have hbu2 : b.status = Status.uploading := by simpa using hbu
          have hbx : b.id = x := hkey b (by simp [hb]) hbu2
          exact hhead b hb (by rw [hax, hbx])
        have hnil : (t.filter fun it => it.status == Status.uploading) = [] :=
          List.filter_eq_nil_iff.mpr htnone
        simp [uploadingCount, List.filter_cons, ha, hnil]
      · have hrec := ih htail (fun b hb hbu => hkey b (by simp [hb]) hbu)
        have hfa : ((a.status == Status.uploading) : Bool) = false := by
          simpa using ha
        simpa [uploadingCount, List.filter_cons, hfa] using hrec

lemma uploadingCount_of_inv (s : EngineState) (h : singleFlightInv s) :
    uploadingCount s.queue ≤ 1 := by
  obtain ⟨hm, hlen, hproc, hkey, hnone, hpw, hid⟩ := h
  by_cases hex : ∃ it : Item, Callback.attempt it ∈ s.conts
  · obtain ⟨it, hit⟩ := hex
    exact uploadingCount_le_one_of_key s.queue it.id hpw
      (fun a ha hau => hkey it hit a ha hau)
  · push_neg at hex
    have hnu := hnone hex
    have hnil : (s.queue.filter fun it => it.status == Status.uploading) = [] := by
      apply List.filter_eq_nil_iff.mpr
      intro b hb hbu
      exact hnu b hb (by simpa using hbu)
    simp [uploadingCount, hnil]

lemma pairwise_markUploading (q : List Item) (x : Nat)
    (hpw : q.Pairwise (fun a b => a.id ≠ b.id)) :
    (markUploading q x).Pairwise (fun a b => a.id ≠ b.id) := by
  unfold markUploading
  rw [List.pairwise_map]
  refine hpw.imp ?_
  intro a b hab
  rw [(markUploading_shape x a).1, (markUploading_shape x b).1]
  exact hab

lemma singleFlightInv_tickStart (s : EngineState)
    (hm : s.mounted = true)
    (hc : s.conts = [])
    (hnu : ∀ q ∈ s.queue, q.status ≠ Status.uploading)
    (hpw : s.queue.Pairwise (fun a b => a.id ≠ b.id))
    (hids : ∀ q ∈ s.queue, q.id < s.nextId)
    (hpr : nextEligible s.queue ≠ none → s.processing = true) :
    singleFlightInv (tickStart s) := by
  unfold tickStart
  rw [hm]
  simp only [if_true]
  cases hne : nextEligible s.queue with
  | none =>
      refine ⟨rfl, by simp [hc], fun h => absurd hc h, ?_, ?_, hpw, hids⟩
      · intro it hit
        rw [hc] at hit
        simp at hit
      · intro _
        exact hnu
  | some it =>
      refine ⟨rfl, by simp [hc], ?_, ?_, ?_, ?_, ?_⟩
      · intro _
        exact hpr (by rw [hne]; exact Option.noConfusion)
      · intro it2 hit2 q hq hu
        rw [hc] at hit2
        have hit2eq : it2 = it := by simpa using hit2
        rw [hit2eq]
        unfold markUploading at hq
        obtain ⟨p, hp, rfl⟩ := List.mem_map.mp hq
        by_cases hid : p.id = it.id
        · rw [(markUploading_shape it.id p).1]
          exact hid
        · rw [(markUploading_shape it.id p).2 hid] at hu
          exact absurd hu (hnu p hp)
      · intro hno
        exfalso
        exact hno it (by rw [hc]; simp)
      · exact pairwise_markUploading s.queue it.id hpw
      · intro q hq
        unfold markUploading at hq
        obtain ⟨p, hp, rfl⟩ := List.mem_map.mp hq
        rw [(markUploading_shape it.id p).1]
        exact hids p hp

lemma pairwise_update_by_id (q : List Item) (f : Item → Item)
    (hfid : ∀ p, (f p).id = p.id)
    (hpw : q.Pairwise (fun a b => a.id ≠ b.id)) :
    (q.map f).Pairwise (fun a b => a.id ≠ b.id) := by
  rw [List.pairwise_map]
  refine hpw.imp ?_
  intro a b hab
  rw [hfid, hfid]
  exact hab

lemma ids_update_by_id (q : List Item) (f : Item → Item) (n : Nat)
    (hfid : ∀ p, (f p).id = p.id)
    (hids : ∀ p ∈ q, p.id < n) : ∀ p ∈ q.map f, p.id < n := by
  intro p2 hp2
  obtain ⟨p, hp, rfl⟩ := List.mem_map.mp hp2
  rw [hfid]
  exact hids p hp

lemma singleFlightInv_completeAttempt (s : EngineState) (it : Item) (o : Outcome)
    (hm : s.mounted = true)
    (hc : s.conts = [])
    (hproc : s.processing = true)
    (hkey : ∀ q ∈ s.queue, q.status = Status.uploading → q.id = it.id)
    (hpw : s.queue.Pairwise (fun a b => a.id ≠ b.id))
    (hids : ∀ q ∈ s.queue, q.id < s.nextId) :
    singleFlightInv (completeAttempt s it o) := by
  cases o with
  | success =>
      refine ⟨hm, by simp [completeAttempt, hc], fun _ => hproc, ?_, ?_, ?_, ?_⟩
      · intro it2 hit2
        simp only [completeAttempt] at hit2
        rw [hc] at hit2
        simp at hit2
      · intro _ q hq hu
        obtain ⟨p, hp, rfl⟩ := List.mem_map.mp hq
        by_cases hid : p.id = it.id
        · rw [if_pos hid] at hu
          simp at hu
        · rw [if_neg hid] at hu
          exact hid (hkey p hp hu)
      · exact pairwise_update_by_id s.queue _
          (fun p => by by_cases h : p.id = it.id <;> simp [h]) hpw
      · exact ids_update_by_id s.queue _ s.nextId
          (fun p => by by_cases h : p.id = it.id <;> simp [h]) hids
  | rateLimit =>
      refine ⟨hm, by simp [completeAttempt, hc], fun _ => hproc, ?_, ?_, ?_, ?_⟩
      · intro it2 hit2
        simp only [completeAttempt] at hit2
        rw [hc] at hit2
        simp at hit2
      · intro _ q hq hu
        obtain ⟨p, hp, rfl⟩ := List.mem_map.mp hq
        by_cases hid : p.id = it.id
        · rw [if_pos hid] at hu
          simp at hu
        · rw [if_neg hid] at hu
          exact hid (hkey p hp hu)
      · exact pairwise_update_by_id s.queue _
          (fun p => by by_cases h : p.id = it.id <;> simp [h]) hpw
      · exact ids_update_by_id s.queue _ s.nextId
          (fun p => by by_cases h : p.id = it.id <;> simp [h]) hids
  | error =>
      refine ⟨hm, by simp [completeAttempt, hc], fun _ => hproc, ?_, ?_, ?_, ?_⟩
      · intro it2 hit2
        simp only [completeAttempt] at hit2
        rw [hc] at hit2
        simp at hit2
      · intro _ q hq hu
        simp only [completeAttempt] at hq
        obtain ⟨p, hp, rfl⟩ := List.mem_map.mp hq
        by_cases hid : p.id = it.id
        · rw [if_pos hid] at hu
          rcases Decidable.em (MAX_RETRIES ≤ it.retryCount + 1) with hf | hf <;>
            simp [hf] at hu
        · rw [if_neg hid] at hu
          exact hid (hkey p hp hu)
      · exact pairwise_update_by_id s.queue _
          (fun p => by by_cases h : p.id = it.id <;> simp [h]) hpw
      · exact ids_update_by_id s.queue _ s.nextId
          (fun p => by by_cases h : p.id = it.id <;> simp [h]) hids

lemma singleFlightInv_step (s : EngineState) (e : Event)
    (hcore : isCoreEvent e = true) (h : singleFlightInv s) :
    singleFlightInv (step s e) := by
  obtain ⟨hm, hlen, hproc, hkey, hnone, hpw, hids⟩ := h
  cases e with
  | enqueue img =>
      simp only [step, addToQueue]
      refine ⟨hm, hlen, hproc, ?_, ?_, ?_, ?_⟩
      · intro it2 hit2 q hq hu
        rcases List.mem_append.mp hq with hold | hnew
        · exact hkey it2 hit2 q hold hu
        · simp at hnew
          rw [hnew] at hu
          simp at hu
      · intro hno q hq hu
        rcases List.mem_append.mp hq with hold | hnew
        · exact hnone hno q hold hu
        · simp at hnew
          rw [hnew] at hu
          simp at hu
      · rw [List.pairwise_append]
        refine ⟨hpw, by simp, ?_⟩
        intro a ha b hb
        simp at hb
        rw [hb]
        exact Nat.ne_of_lt (hids a ha)
      · intro q hq
        rcases List.mem_append.mp hq with hold | hnew
        · exact Nat.lt_succ_of_lt (hids q hold)
        · simp at hnew
          rw [hnew]
          exact Nat.lt_succ_self _
  | autoStart =>
      simp only [step]
      unfold autoStartStep
      by_cases hg : ((nextEligible s.queue).isSome && !s.processing && !s.isRateLimited) = true
      · rw [if_pos hg]
        unfold startProcessing
        have hpr : s.processing = false := by
          simp only [Bool.and_eq_true, Bool.not_eq_true'] at hg
          exact hg.1.2
        rw [if_neg (by rw [hpr, hm]; simp)]
        have hcempty : s.conts = [] := by
          by_cases hce : s.conts = []
          · exact hce
          · exact absurd (hproc hce) (by rw [hpr]; simp)
        apply singleFlightInv_tickStart
        · exact hm
        · exact hcempty
        · exact hnone (by intro it2 hit2; rw [hcempty] at hit2; simp at hit2)
        · exact hpw
        · exact hids
        · intro _
          rfl
      · rw [if_neg hg]
        exact ⟨hm, hlen, hproc, hkey, hnone, hpw, hids⟩
  | complete i o =>
      simp only [step]
      cases hgc : s.conts[i]? with
      | none => exact ⟨hm, hlen, hproc, hkey, hnone, hpw, hids⟩
      | some c =>
          cases c with
          | attempt it =>
              simp only [hgc]
              obtain ⟨hcs, hi0⟩ := conts_singleton hlen hgc
              have herase : s.conts.eraseIdx i = [] := by
                rw [hcs, hi0]
                rfl
              have hm1 : ({ s with conts := s.conts.eraseIdx i } : EngineState).mounted = true := hm
              rw [if_pos hm1]
              apply singleFlightInv_completeAttempt
              · exact hm
              · exact herase
              · exact hproc (by rw [hcs]; simp)
              · intro q hq hu
                exact hkey it (by rw [hcs]; simp) q hq hu
              · exact hpw
              · exact hids
          | nextTimer =>
              simp only [hgc]
              exact ⟨hm, hlen, hproc, hkey, hnone, hpw, hids⟩
          | rateLimitTimer =>
              simp only [hgc]
              exact ⟨hm, hlen, hproc, hkey, hnone, hpw, hids⟩
  | timerFire i =>
      simp only [step]
      cases hgc : s.conts[i]? with
      | none => exact ⟨hm, hlen, hproc, hkey, hnone, hpw, hids⟩
      | some c =>
          cases c with
          | attempt it =>
              simp only [hgc]
              exact ⟨hm, hlen, hproc, hkey, hnone, hpw, hids⟩
          | nextTimer =>
              simp only [hgc]
              obtain ⟨hcs, hi0⟩ := conts_singleton hlen hgc
              have herase : s.conts.eraseIdx i = [] := by
                rw [hcs, hi0]
                rfl
              have hm1 : ({ s with conts := s.conts.eraseIdx i } : EngineState).mounted = true := hm
              rw [if_pos hm1]
              apply singleFlightInv_tickStart
              · exact hm
              · exact herase
              · exact hnone (by intro it2 hit2; rw [hcs] at hit2; simp at hit2)
              · exact hpw
              · exact hids
              · intro _
                exact hproc (by rw [hcs]; simp)
          | rateLimitTimer =>
              simp only [hgc]
              obtain ⟨hcs, hi0⟩ := conts_singleton hlen hgc
              have herase : s.conts.eraseIdx i = [] := by
                rw [hcs, hi0]
                rfl
              have hm1 : ({ s with conts := s.conts.eraseIdx i, isRateLimited := false } : EngineState).mounted = true := hm
              rw [if_pos hm1]
              apply singleFlightInv_tickStart
              · exact hm
              · exact herase
              · exact hnone (by intro it2 hit2; rw [hcs] at hit2; simp at hit2)
              · exact hpw
              · exact hids
              · intro _
                exact hproc (by rw [hcs]; simp)
  | clearQueue => exact absurd hcore (by decide)
  | retryFailed => exact absurd hcore (by decide)
  | unmount => exact absurd hcore (by decide)
  | loadOffline => exact absurd hcore (by decide)

lemma singleFlightInv_run (es : List Event) : ∀ s : EngineState,
    (∀ e ∈ es, isCoreEvent e = true) → singleFlightInv s →
    singleFlightInv (run s es) := by
  induction es with
  | nil => intro s _ h; exact h
  | cons e t ih =>
      intro s hcore h
      exact ih (step s e) (fun e2 he2 => hcore e2 (by simp [he2]))
        (singleFlightInv_step s e (hcore e (by simp)) h)

lemma singleFlightInv_initState : singleFlightInv initState := by
  refine ⟨rfl, by simp [initState], ?_, ?_, ?_, ?_, ?_⟩ <;>
    simp [initState]

/-- Claim C1: for every interleaving of the claim's events — enqueue,
tick-completion, timer-expiry, plus the auto-start effect whose
processing-flag guard enforces the property — every reachable engine state
has at most one queue item with status `'uploading'` (the code's
`in_flight`). -/
theorem single_inflight (es : List Event)
    (hcore : ∀ e ∈ es, isCoreEvent e = true) :
    uploadingCount (run initState es).queue ≤ 1 :=
  uploadingCount_of_inv (run initState es)
    (singleFlightInv_run es initState hcore singleFlightInv_initState)

theorem single_inflight_witness :
    uploadingCount (run initState
      [Event.enqueue "a", Event.enqueue "b", Event.autoStart,
       Event.complete 0 Outcome.rateLimit, Event.timerFire 0]).queue ≤ 1 :=
  single_inflight
    [Event.enqueue "a", Event.enqueue "b", Event.autoStart,
     Event.complete 0 Outcome.rateLimit, Event.timerFire 0]
    (by decide)
